import Mathlib

/-!
Shallow embedding of the chunking engine of `backend/text_splitter.py`
(`SentenceTextSplitter`, `SimpleTextSplitter`) together with the data model
of `backend/page.py`.  Python strings are modelled as `List Char`, Python
slices `text[:k]` / `text[k:]` as `List.take` / `List.drop`, and the
dataclass metadata dictionaries as association lists.  The tiktoken encoder
is an external dependency of the source module, so token counting is a
function parameter `ct : List Char → Nat`.  Python generators are modelled
as fuel-indexed list producers: yields only happen inside the body, so a
run with any amount of fuel returns exactly the chunks a finite prefix of
the generator would yield.
-/

namespace TextSplitter

/-- Model of `Page` from `backend/page.py`: `page_num`, `offset`, `text`, `meta`. -/
structure Page where
  page_num : Nat
  offset : Nat
  text : List Char
  meta : List (String × String)
deriving DecidableEq

/-- Model of `SplitPage` from `backend/page.py`; `meta` defaults to the empty dict,
exactly as `meta: Dict[str, Any] = field(default_factory=dict)`. -/
structure SplitPage where
  page_num : Nat
  text : List Char
  meta : List (String × String) := []
deriving DecidableEq

/-- Characters stripped by Python `str.strip()` (ASCII whitespace). -/
def py_whitespace : List Char := [' ', '\t', '\n', '\r', '\x0b', '\x0c']

def is_py_ws (c : Char) : Bool := py_whitespace.contains c

/-- Predicate for `not all_text.strip()`: true iff the string is empty or all whitespace. -/
def strip_empty (s : List Char) : Bool := s.all is_py_ws

/-- Constant `STANDARD_WORD_BREAKS` from `text_splitter.py`. -/
def STANDARD_WORD_BREAKS : List Char :=
  [',', ';', ':', ' ', '(', ')', '[', ']', Char.ofNat 123, Char.ofNat 125,
   '\t', '\n']

/-- Constant `CJK_WORD_BREAKS` from `text_splitter.py`. -/
def CJK_WORD_BREAKS : List Char :=
  ['、', '，', '；', '：', '（', '）', '【', '】', '「', '」', '『', '』',
   '〔', '〕', '〈', '〉', '《', '》', '〖', '〗', '〘', '〙', '〚', '〛',
   '〝', '〞', '〟', '〰', '–', '—', '‘', '’', '‚', '‛', '“', '”',
   '„', '‟', '‹', '›']

/-- Constant `STANDARD_SENTENCE_ENDINGS` from `text_splitter.py`. -/
def STANDARD_SENTENCE_ENDINGS : List Char := ['.', '!', '?']

/-- Constant `CJK_SENTENCE_ENDINGS` from `text_splitter.py`. -/
def CJK_SENTENCE_ENDINGS : List Char := ['。', '！', '？', '‼', '⁇', '⁈', '⁉']

/-- Field `self.sentence_endings = STANDARD_SENTENCE_ENDINGS + CJK_SENTENCE_ENDINGS`. -/
def sentence_endings : List Char := STANDARD_SENTENCE_ENDINGS ++ CJK_SENTENCE_ENDINGS

/-- Field `self.word_breaks = STANDARD_WORD_BREAKS + CJK_WORD_BREAKS`. -/
def word_breaks : List Char := STANDARD_WORD_BREAKS ++ CJK_WORD_BREAKS

/-- Constructor parameters of `SentenceTextSplitter`; `section_overlap` is
derived below exactly as `int(max_section_length * overlap_percent / 100)`. -/
structure SentenceSplitCfg where
  max_tokens_per_section : Nat
  max_section_length : Nat
  overlap_percent : Nat
  sentence_search_limit : Nat
deriving DecidableEq

def SentenceSplitCfg.section_overlap (c : SentenceSplitCfg) : Nat :=
  c.max_section_length * c.overlap_percent / 100

/-- The defaults `max_tokens_per_section=500, max_section_length=1000,
overlap_percent=10, sentence_search_limit=100`. -/
def default_cfg : SentenceSplitCfg :=
  { max_tokens_per_section := 500
    max_section_length := 1000
    overlap_percent := 10
    sentence_search_limit := 100 }

/-- The `for offset in range(boundary)` search of `split_page_by_max_tokens`
(lines 100-108): at each `offset` check `left = center - offset` first, then
`right = center + offset`; the first sentence-ending position found gives
`split_pos = position + 1`.  `fuel` counts the remaining iterations, so the
initial call uses `fuel = boundary`. -/
def split_pos_loop (t : List Char) (center len : Nat) : Nat → Nat → Option Nat
  | _, 0 => none
  | offset, fuel+1 =>
    if 0 < center - offset ∧ t.getD (center - offset) ' ' ∈ sentence_endings then
      some (center - offset + 1)
    else if center + offset < len ∧ t.getD (center + offset) ' ' ∈ sentence_endings then
      some (center + offset + 1)
    else
      split_pos_loop t center len (offset + 1) fuel

/-- The `split_pos` computation of `split_page_by_max_tokens`: `center = length // 2`,
`boundary = length // 3`, search as in `split_pos_loop`; `none` models the
sentinel `split_pos = -1`. -/
def split_pos_search (t : List Char) : Option Nat :=
  split_pos_loop t (t.length / 2) t.length 0 (t.length / 3)

/-- Fallback halves of `split_page_by_max_tokens` (lines 110-115):
`mid = length // 2`, `overlap = int(length * 0.1)` (= `length / 10` on the
integers reachable here), `first = text[: mid + overlap]`,
`second = text[mid - overlap :]`. -/
def fallback_halves (t : List Char) : List Char × List Char :=
  let mid := t.length / 2
  let overlap := t.length / 10
  (t.take (mid + overlap), t.drop (mid - overlap))

/-- The `first`/`second` pair computed by `split_page_by_max_tokens`
(lines 110-118). -/
def split_halves (t : List Char) : List Char × List Char :=
  match split_pos_search t with
  | some split_pos => (t.take split_pos, t.drop split_pos)
  | none => fallback_halves t

/-- Model of `SentenceTextSplitter.split_page_by_max_tokens` (lines 81-121), with the
tiktoken call `len(encoder.encode(text))` abstracted as `ct` and generator
recursion bounded by `fuel` (out of fuel produces no further yields, matching
an unfinished generator prefix). -/
def split_page_by_max_tokens (ct : List Char → Nat) (maxTok : Nat) :
    Nat → Nat → List Char → List SplitPage
  | 0, _, _ => []
  | fuel+1, page_num, t =>
    if ct t ≤ maxTok then
      [{ page_num := page_num, text := t }]
    else
      split_page_by_max_tokens ct maxTok fuel page_num (split_halves t).1 ++
      split_page_by_max_tokens ct maxTok fuel page_num (split_halves t).2

/-- Model of `SentenceTextSplitter._find_page` (lines 170-176): scan consecutive pairs,
return `pages[i].page_num` on the first `pages[i].offset <= offset <
pages[i+1].offset`, else `pages[-1].page_num`.  (On the empty list the Python
code raises `IndexError`; the claims only concern non-empty lists, and the
model returns 0 there.) -/
def find_page : List Page → Nat → Nat
  | [], _ => 0
  | [p], _ => p.page_num
  | p :: q :: rest, offset =>
    if p.offset ≤ offset ∧ offset < q.offset then p.page_num
    else find_page (q :: rest) offset

/-- One step of the cursor walk of `split_pages` (lines 149-156): advance
while `cursor < total_len and cursor - end < sentence_search_limit and
all_text[cursor] not in sentence_endings`, recording the last word break.
`lwb` models `last_word_break` (initially `-1`). -/
def extend_scan (t : List Char) (end0 limit : Nat) :
    Nat → Nat → Int → Nat × Int
  | 0, cursor, lwb => (cursor, lwb)
  | fuel+1, cursor, lwb =>
    if cursor < t.length ∧ cursor - end0 < limit ∧
        t.getD cursor ' ' ∉ sentence_endings then
      extend_scan t end0 limit fuel (cursor + 1)
        (if t.getD cursor ' ' ∈ word_breaks then (cursor : Int) else lwb)
    else
      (cursor, lwb)

/-- The whole boundary-extension step of `split_pages` (lines 146-160):
run the cursor walk from `end0`, then
`end = last_word_break + 1` if `cursor < total_len and last_word_break > 0`
else `end = cursor`. -/
def extend_end (t : List Char) (limit end0 : Nat) : Nat :=
  let r := extend_scan t end0 limit (t.length + 1) end0 (-1)
  if r.1 < t.length ∧ r.2 > 0 then (r.2 + 1).toNat else r.1

/-- Concatenation `"".join(p.text for p in pages)`. -/
def join_text (pages : List Page) : List Char := (pages.map Page.text).flatten

/-- The sliding-window `while start < total_len` loop of
`SentenceTextSplitter.split_pages` (lines 143-168), one fuel unit per
iteration.  Each iteration computes `end`, yields the token-split of
`all_text[start:end]`, and continues from `start = end - section_overlap`. -/
def sentence_loop (ct : List Char → Nat) (cfg : SentenceSplitCfg)
    (pages : List Page) (t : List Char) (tokFuel : Nat) :
    Nat → Nat → List SplitPage
  | 0, _ => []
  | fuel+1, start =>
    if start < t.length then
      let end0 := min (start + cfg.max_section_length) t.length
      let endE := extend_end t cfg.sentence_search_limit end0
      split_page_by_max_tokens ct cfg.max_tokens_per_section tokFuel
          (find_page pages start) ((t.take endE).drop start) ++
        sentence_loop ct cfg pages t tokFuel fuel (endE - cfg.section_overlap)
    else []

/-- Model of `SentenceTextSplitter.split_pages` (lines 123-168). -/
def split_pages_sentence (ct : List Char → Nat) (cfg : SentenceSplitCfg)
    (loopFuel tokFuel : Nat) (pages : List Page) : List SplitPage :=
  let all_text := join_text pages
  if strip_empty all_text then []
  else if all_text.length ≤ cfg.max_section_length then
    split_page_by_max_tokens ct cfg.max_tokens_per_section tokFuel
      (find_page pages 0) all_text
  else
    sentence_loop ct cfg pages all_text tokFuel loopFuel 0

/-- The `for idx in range(0, length, L)` loop of
`SimpleTextSplitter.split_pages` (lines 206-208); `k` is `idx // L`, which
is also the yielded `page_num`.  (`L = 0` raises in Python; the model stops.) -/
def simple_chunks (L : Nat) : Nat → Nat → List Char → List SplitPage
  | 0, _, _ => []
  | _, _, [] => []
  | fuel+1, k, c :: t =>
    if L = 0 then []
    else
      { page_num := k, text := (c :: t).take L } ::
        simple_chunks L fuel (k + 1) ((c :: t).drop L)

/-- Model of `SimpleTextSplitter.split_pages` (lines 190-208).  The loop runs
`ceil(length / L)` times, so fuel `length` suffices for `L ≥ 1`. -/
def simple_split_pages (L : Nat) (pages : List Page) : List SplitPage :=
  let all_text := join_text pages
  if strip_empty all_text then []
  else if all_text.length ≤ L then [{ page_num := 0, text := all_text }]
  else simple_chunks L all_text.length 0 all_text

/-! Concrete fixtures used by witnesses and counterexamples. -/

/-- A default `Page` used only to totalise list indexing in statements. -/
def d_page : Page := { page_num := 0, offset := 0, text := [], meta := [] }

/-- A token counter for concrete runs: one token per character. -/
def count_len : List Char → Nat := List.length

/-- A token counter where one character counts as two tokens, as tiktoken
reports for some multi-byte characters. -/
def count_two : List Char → Nat := fun t => 2 * t.length

/-- Configuration `SentenceTextSplitter(max_tokens_per_section=500, max_section_length=10,
overlap_percent=10, sentence_search_limit=100)`: `section_overlap = 1`. -/
def cfg_small : SentenceSplitCfg :=
  { max_tokens_per_section := 500
    max_section_length := 10
    overlap_percent := 10
    sentence_search_limit := 100 }

/-- Eleven letters `a`: one character longer than `cfg_small`'s window. -/
def t_a : List Char := List.replicate 11 'a'

/-- A single page holding `t_a`. -/
def pg_a : Page := { page_num := 0, offset := 0, text := t_a, meta := [] }

/-- A two-character page with non-empty metadata. -/
def pg_hi : Page :=
  { page_num := 0, offset := 0, text := ['h', 'i'], meta := [("url", "u")] }

/-- A page whose text is `"a   b"`: chunking it with window 2 produces an
all-whitespace middle chunk. -/
def pg_ws_mix : Page := { page_num := 0, offset := 0, text := "a   b".toList, meta := [] }

/-- A page whose text is `"ab"`. -/
def pg_ab : Page := { page_num := 0, offset := 0, text := "ab".toList, meta := [] }

/-- A page whose text is a single blank. -/
def pg_ws : Page := { page_num := 0, offset := 0, text := [' '], meta := [] }

/-- Two pages with offsets 0 and 2. -/
def pages_two : List Page :=
  [{ page_num := 0, offset := 0, text := "ab".toList, meta := [] },
   { page_num := 1, offset := 2, text := "cd".toList, meta := [] }]

end TextSplitter

namespace TextSplitter

/-! Helper lemmas shared by several claims. -/

theorem take_contig (t : List Char) (n : Nat) : t.take n <:+: t :=
  ⟨[], t.drop n, by simp⟩

theorem drop_contig (t : List Char) (n : Nat) : t.drop n <:+: t :=
  ⟨t.take n, [], by simp⟩

theorem split_halves_fst_take (t : List Char) : ∃ n, (split_halves t).1 = t.take n := by
  unfold split_halves fallback_halves
  cases h : split_pos_search t with
  | some p => exact ⟨p, rfl⟩
  | none => exact ⟨_, rfl⟩

theorem split_halves_snd_drop (t : List Char) : ∃ n, (split_halves t).2 = t.drop n := by
  unfold split_halves fallback_halves
  cases h : split_pos_search t with
  | some p => exact ⟨p, rfl⟩
  | none => exact ⟨_, rfl⟩

/-- Every chunk produced by the token recursion comes from a base case:
it fits the token budget, carries the `page_num` passed in, its text is a
contiguous slice of the input, and its metadata is the default empty dict. -/
theorem split_page_mem_spec (ct : List Char → Nat) (maxTok : Nat) :
    ∀ fuel pn t sp, sp ∈ split_page_by_max_tokens ct maxTok fuel pn t →
      ct sp.text ≤ maxTok ∧ sp.page_num = pn ∧ sp.text <:+: t ∧ sp.meta = [] := by
  intro fuel
  induction fuel with
  | zero =>
    intro pn t sp h
    simp [split_page_by_max_tokens] at h
  | succ f ih =>
    intro pn t sp h
    simp only [split_page_by_max_tokens] at h
    by_cases hc : ct t ≤ maxTok
    · rw [if_pos hc] at h
      simp only [List.mem_singleton] at h
      subst h
      exact ⟨hc, rfl, ⟨[], [], by simp⟩, rfl⟩
    · rw [if_neg hc] at h
      rcases List.mem_append.1 h with h1 | h1
      · obtain ⟨hct, hpn, hinf, hm⟩ := ih pn _ sp h1
        obtain ⟨a, ha⟩ := split_halves_fst_take t
        rw [ha] at hinf
        exact ⟨hct, hpn, hinf.trans (take_contig t a), hm⟩
      · obtain ⟨hct, hpn, hinf, hm⟩ := ih pn _ sp h1
        obtain ⟨a, ha⟩ := split_halves_snd_drop t
        rw [ha] at hinf
        exact ⟨hct, hpn, hinf.trans (drop_contig t a), hm⟩

/-- C6: every chunk yielded by `SentenceTextSplitter.split_page_by_max_tokens`
has a token count (as reported by the token-counting capability) at most
`max_tokens_per_section`. -/
theorem c6_token_budget (ct : List Char → Nat) (maxTok fuel pn : Nat)
    (t : List Char) (sp : SplitPage)
    (h : sp ∈ split_page_by_max_tokens ct maxTok fuel pn t) :
    ct sp.text ≤ maxTok :=
  (split_page_mem_spec ct maxTok fuel pn t sp h).1

theorem c6_token_budget_witness :
    ({ page_num := 0, text := ['h', 'i'] } : SplitPage) ∈
        split_page_by_max_tokens count_len 500 1 0 ['h', 'i'] ∧
      count_len ['h', 'i'] ≤ 500 :=
  ⟨by decide, c6_token_budget count_len 500 1 0 ['h', 'i'] { page_num := 0, text := ['h', 'i'] } (by decide)⟩

/-- C10: every chunk yielded by `split_page_by_max_tokens(page_num, text)`
carries exactly the `page_num` passed in, and its text is a contiguous
substring of `text`. -/
theorem c10_provenance (ct : List Char → Nat) (maxTok fuel pn : Nat)
    (t : List Char) (sp : SplitPage)
    (h : sp ∈ split_page_by_max_tokens ct maxTok fuel pn t) :
    sp.page_num = pn ∧ sp.text <:+: t :=
  ⟨(split_page_mem_spec ct maxTok fuel pn t sp h).2.1,
   (split_page_mem_spec ct maxTok fuel pn t sp h).2.2.1⟩

theorem c10_provenance_witness :
    ({ page_num := 3, text := ['h', 'i'] } : SplitPage) ∈
        split_page_by_max_tokens count_len 500 1 3 ['h', 'i'] ∧
      (3 = 3 ∧ ['h', 'i'] <:+: ['h', 'i']) :=
  ⟨by decide, c10_provenance count_len 500 1 3 ['h', 'i'] { page_num := 3, text := ['h', 'i'] } (by decide)⟩

/-- C3 counterexample: `split_page_by_max_tokens` run on a page whose
metadata is non-empty yields a chunk whose `meta` is NOT the page's
metadata (it is the dataclass default `{}`; the source never passes
`meta` when constructing `SplitPage`). -/
theorem c3_counterexample :
    ¬ ∀ sp ∈ split_page_by_max_tokens count_len 500 1 pg_hi.page_num pg_hi.text,
        sp.meta = pg_hi.meta := by
  decide

/-- C3 amended: every `SplitPage` yielded by `split_page_by_max_tokens`
carries the default empty metadata mapping, not the attributed page's
metadata. -/
theorem c3_amended_default_meta (ct : List Char → Nat) (maxTok fuel pn : Nat)
    (t : List Char) (sp : SplitPage)
    (h : sp ∈ split_page_by_max_tokens ct maxTok fuel pn t) :
    sp.meta = [] :=
  (split_page_mem_spec ct maxTok fuel pn t sp h).2.2.2

theorem c3_amended_default_meta_witness :
    ({ page_num := 0, text := ['h', 'i'] } : SplitPage) ∈
        split_page_by_max_tokens count_len 500 1 pg_hi.page_num pg_hi.text ∧
      ([] : List (String × String)) = [] :=
  ⟨by decide,
   c3_amended_default_meta count_len 500 1 pg_hi.page_num pg_hi.text { page_num := 0, text := ['h', 'i'] } (by decide)⟩

/-- C8: in the no-sentence-boundary fallback, `first = text[: mid + pad]` and
`second = text[mid - pad :]` share an overlap of exactly `2 * pad` characters
(the last `2 * pad` characters of `first` are the first `2 * pad` characters
of `second`), and `first ++ second[2 * pad :]` reconstructs `text` exactly. -/
theorem c8_fallback_overlap (t : List Char) :
    (fallback_halves t).1 ++ ((fallback_halves t).2).drop (2 * (t.length / 10)) = t ∧
    ((fallback_halves t).1).drop (t.length / 2 - t.length / 10) =
      ((fallback_halves t).2).take (2 * (t.length / 10)) ∧
    (((fallback_halves t).1).drop (t.length / 2 - t.length / 10)).length =
      2 * (t.length / 10) := by
  have hpm : t.length / 10 ≤ t.length / 2 := by omega
  have hle : t.length / 2 + t.length / 10 ≤ t.length := by omega
  unfold fallback_halves
  simp only
  refine ⟨?_, ?_, ?_⟩
  · rw [List.drop_drop, show t.length / 2 - t.length / 10 + 2 * (t.length / 10) =
      t.length / 2 + t.length / 10 by omega]
    exact List.take_append_drop _ t
  · rw [List.drop_take, show t.length / 2 + t.length / 10 - (t.length / 2 - t.length / 10) =
      2 * (t.length / 10) by omega]
  · simp only [List.length_drop, List.length_take]
    omega

/-- Invariant of the cursor walk: the cursor never moves backwards, the
recorded `last_word_break` is a genuine word-break position in
`[end0, cursor)` whenever it is not the sentinel `-1`, and (given enough
fuel) the walk stops only at end of text, at the search limit, or on a
sentence-ending character. -/
theorem extend_scan_spec (t : List Char) (end0 limit : Nat) :
    ∀ fuel cursor lwb,
      end0 ≤ cursor →
      (lwb = -1 ∨ ((end0 : Int) ≤ lwb ∧ lwb < (cursor : Int) ∧
        t.getD lwb.toNat ' ' ∈ word_breaks)) →
      t.length ≤ cursor + fuel →
      cursor ≤ (extend_scan t end0 limit fuel cursor lwb).1 ∧
      ((extend_scan t end0 limit fuel cursor lwb).2 = -1 ∨
        ((end0 : Int) ≤ (extend_scan t end0 limit fuel cursor lwb).2 ∧
         (extend_scan t end0 limit fuel cursor lwb).2 <
           ((extend_scan t end0 limit fuel cursor lwb).1 : Int) ∧
         t.getD (extend_scan t end0 limit fuel cursor lwb).2.toNat ' ' ∈ word_breaks)) ∧
      (t.length ≤ (extend_scan t end0 limit fuel cursor lwb).1 ∨
       limit ≤ (extend_scan t end0 limit fuel cursor lwb).1 - end0 ∨
       t.getD (extend_scan t end0 limit fuel cursor lwb).1 ' ' ∈ sentence_endings) := by
  intro fuel
  induction fuel with
  | zero =>
    intro cursor lwb hc hl hf
    simp only [extend_scan]
    exact ⟨le_refl _, hl, Or.inl (by omega)⟩
  | succ f ih =>
    intro cursor lwb hc hl hf
    simp only [extend_scan]
    by_cases hcond : cursor < t.length ∧ cursor - end0 < limit ∧
        t.getD cursor ' ' ∉ sentence_endings
    · rw [if_pos hcond]
      have hl' : (if t.getD cursor ' ' ∈ word_breaks then (cursor : Int) else lwb) = -1 ∨
          ((end0 : Int) ≤ (if t.getD cursor ' ' ∈ word_breaks then (cursor : Int) else lwb) ∧
           (if t.getD cursor ' ' ∈ word_breaks then (cursor : Int) else lwb) < ((cursor + 1 : Nat) : Int) ∧
           t.getD (if t.getD cursor ' ' ∈ word_breaks then (cursor : Int) else lwb).toNat ' '
             ∈ word_breaks) := by
        by_cases hw : t.getD cursor ' ' ∈ word_breaks
        · rw [if_pos hw]
          refine Or.inr ⟨by exact_mod_cast hc, by push_cast; omega, ?_⟩
          simpa using hw
        · rw [if_neg hw]
          rcases hl with h | ⟨h1, h2, h3⟩
          · exact Or.inl h
          · exact Or.inr ⟨h1, by push_cast at h2 ⊢; omega, h3⟩
      have := ih (cursor + 1) _ (by omega) hl' (by omega)
      exact ⟨le_trans (Nat.le_succ _) this.1, this.2.1, this.2.2⟩
    · rw [if_neg hcond]
      push_neg at hcond
      refine ⟨le_refl _, hl, ?_⟩
      by_cases h1 : cursor < t.length
      · by_cases h2 : cursor - end0 < limit
        · exact Or.inr (Or.inr (hcond h1 h2))
        · exact Or.inr (Or.inl (by omega))
      · exact Or.inl (by omega)

/-- C2 counterexample: on `"a b.c"` with `end = 0`, the cursor stops on the
sentence ending `.` at position 3, strictly before the search limit 100 and
before the end of text — yet the window is cut at 2, one character past the
word break recorded at position 1, not at the cursor position 3. -/
theorem c2_counterexample :
    (extend_scan ['a', ' ', 'b', '.', 'c'] 0 100 6 0 (-1)).1 = 3 ∧
    (['a', ' ', 'b', '.', 'c'] : List Char).getD 3 ' ' ∈ sentence_endings ∧
    3 - 0 < 100 ∧ 3 < (['a', ' ', 'b', '.', 'c'] : List Char).length ∧
    extend_end ['a', ' ', 'b', '.', 'c'] 100 0 = 2 ∧
    extend_end ['a', ' ', 'b', '.', 'c'] 100 0 ≠ 3 := by
  decide

/-- C2 amended: the cursor walk stops only at end of text, at the search
limit, or on a sentence-ending character; whenever it stops before the end
of the text (for ANY of those reasons, a found sentence ending included) and
a word break was recorded at a position `> 0`, the window is cut one
character past that word break — a genuine word-break position in
`[end, cursor)`; the cut falls at the cursor only when no word break `> 0`
was recorded or the cursor reached the end of the text. -/
theorem c2_amended_word_break_cut (t : List Char) (limit end0 : Nat) :
    (t.length ≤ (extend_scan t end0 limit (t.length + 1) end0 (-1)).1 ∨
     limit ≤ (extend_scan t end0 limit (t.length + 1) end0 (-1)).1 - end0 ∨
     t.getD (extend_scan t end0 limit (t.length + 1) end0 (-1)).1 ' '
       ∈ sentence_endings) ∧
    ((extend_scan t end0 limit (t.length + 1) end0 (-1)).1 < t.length ∧
        0 < (extend_scan t end0 limit (t.length + 1) end0 (-1)).2 →
      extend_end t limit end0 =
          ((extend_scan t end0 limit (t.length + 1) end0 (-1)).2 + 1).toNat ∧
        (end0 : Int) ≤ (extend_scan t end0 limit (t.length + 1) end0 (-1)).2 ∧
        (extend_scan t end0 limit (t.length + 1) end0 (-1)).2 <
          ((extend_scan t end0 limit (t.length + 1) end0 (-1)).1 : Int) ∧
        t.getD (extend_scan t end0 limit (t.length + 1) end0 (-1)).2.toNat ' '
          ∈ word_breaks) ∧
    (¬ ((extend_scan t end0 limit (t.length + 1) end0 (-1)).1 < t.length ∧
        0 < (extend_scan t end0 limit (t.length + 1) end0 (-1)).2) →
      extend_end t limit end0 = (extend_scan t end0 limit (t.length + 1) end0 (-1)).1) := by
  have hspec := extend_scan_spec t end0 limit (t.length + 1) end0 (-1)
    (le_refl _) (Or.inl rfl) (by omega)
  refine ⟨hspec.2.2, ?_, ?_⟩
  · intro hcut
    rcases hspec.2.1 with hm | ⟨h1, h2, h3⟩
    · exfalso; omega
    · exact ⟨by rw [extend_end, if_pos hcut], h1, h2, h3⟩
  · intro hcut
    rw [extend_end, if_neg hcut]

theorem c2_amended_word_break_cut_witness :
    extend_end ['a', ' ', 'b', '.', 'c'] 100 0 = 2 := by
  have h := (c2_amended_word_break_cut ['a', ' ', 'b', '.', 'c'] 100 0).2.1 (by decide)
  exact h.1.trans (by decide)

/-- Every successful sentence-boundary search near the midpoint returns a
cut position derived from some probe offset `j < fuel` past the starting
offset, on the `left` or the `right` branch. -/
theorem split_pos_loop_some (t : List Char) (center len : Nat) :
    ∀ fuel offset p, split_pos_loop t center len offset fuel = some p →
      ∃ j, offset ≤ j ∧ j < offset + fuel ∧
        ((p = center - j + 1 ∧ 0 < center - j) ∨
         (p = center + j + 1 ∧ center + j < len)) := by
  intro fuel
  induction fuel with
  | zero => intro offset p h; simp [split_pos_loop] at h
  | succ f ih =>
    intro offset p h
    simp only [split_pos_loop] at h
    by_cases h1 : 0 < center - offset ∧ t.getD (center - offset) ' ' ∈ sentence_endings
    · rw [if_pos h1] at h
      exact ⟨offset, le_refl _, by omega, Or.inl ⟨(Option.some.inj h).symm, h1.1⟩⟩
    · rw [if_neg h1] at h
      by_cases h2 : center + offset < len ∧ t.getD (center + offset) ' ' ∈ sentence_endings
      · rw [if_pos h2] at h
        exact ⟨offset, le_refl _, by omega, Or.inr ⟨(Option.some.inj h).symm, h2.1⟩⟩
      · rw [if_neg h2] at h
        obtain ⟨j, hj1, hj2, hj3⟩ := ih (offset + 1) p h
        exact ⟨j, by omega, by omega, hj3⟩

/-- A found `split_pos` is strictly inside the text: `0 < split_pos < length`. -/
theorem split_pos_search_bounds (t : List Char) (p : Nat)
    (h : split_pos_search t = some p) : 0 < p ∧ p < t.length := by
  obtain ⟨j, hj1, hj2, hj3⟩ := split_pos_loop_some t (t.length / 2) t.length _ 0 p h
  rcases hj3 with ⟨hp, hb⟩ | ⟨hp, hb⟩ <;> omega

/-- C5 counterexample: the halving fallback does NOT always strictly shrink.
With a token counter that reports two tokens for one character (as tiktoken
does for some characters) and `max_tokens_per_section = 1`, the one-character
text `"a"` exceeds the budget, no sentence boundary exists, and the fallback
second half `text[mid - pad :]` is the whole text again — not strictly
shorter, so `pad < length/2` fails (`pad = 0 = length // 2`). -/
theorem c5_counterexample :
    1 < count_two ['a'] ∧ split_pos_search ['a'] = none ∧
    (split_halves ['a']).2 = ['a'] ∧
    ¬ ((split_halves ['a']).2).length < (['a'] : List Char).length := by
  decide

/-- C5 amended: for every text of length ≥ 2 that the recursion splits,
both halves — on the sentence-boundary path and on the halving fallback —
are strictly shorter than the text, and `pad = length // 10` is strictly
less than `mid = length // 2`.  (For a length-1 over-budget text the
fallback second half equals the whole text.) -/
theorem c5_amended_strict_shrink (t : List Char) (h2 : 2 ≤ t.length) :
    ((split_halves t).1).length < t.length ∧
    ((split_halves t).2).length < t.length ∧
    t.length / 10 < t.length / 2 := by
  have hpad : t.length / 10 < t.length / 2 := by omega
  unfold split_halves
  cases h : split_pos_search t with
  | some p =>
    obtain ⟨hp0, hpl⟩ := split_pos_search_bounds t p h
    simp only [List.length_take, List.length_drop]
    exact ⟨by omega, by omega, hpad⟩
  | none =>
    unfold fallback_halves
    simp only [List.length_take, List.length_drop]
    refine ⟨by omega, by omega, hpad⟩

theorem c5_amended_strict_shrink_witness :
    2 ≤ ("abcd".toList : List Char).length ∧
    (((split_halves "abcd".toList).1).length < ("abcd".toList : List Char).length ∧
     ((split_halves "abcd".toList).2).length < ("abcd".toList : List Char).length ∧
     ("abcd".toList : List Char).length / 10 < ("abcd".toList : List Char).length / 2) :=
  ⟨by decide, c5_amended_strict_shrink "abcd".toList (by decide)⟩

theorem head_le_of_sorted (q : Page) (rest : List Page)
    (hs : List.Pairwise (fun a b => a.offset ≤ b.offset) (q :: rest))
    (x : Page) (hx : x ∈ q :: rest) : q.offset ≤ x.offset := by
  rcases List.mem_cons.1 hx with rfl | hx2
  · exact le_refl _
  · exact (List.pairwise_cons.1 hs).1 x hx2

theorem getD_mem_pages (l : List Page) (n : Nat) (h : n < l.length) :
    l.getD n d_page ∈ l := by
  rw [List.getD_eq_getElem l d_page h]
  exact l.getElem_mem h

theorem getLastD_of_ne_nil :
    ∀ (l : List Page), l ≠ [] → ∀ a b : Page, l.getLastD a = l.getLastD b := by
  intro l
  induction l with
  | nil => intro h; exact absurd rfl h
  | cons x r ih =>
    intro _ a b
    cases r with
    | nil => rfl
    | cons y s =>
      exact (List.getLastD_cons a x (y :: s)).trans (List.getLastD_cons b x (y :: s)).symm

theorem getLastD_mem_pages :
    ∀ (l : List Page), l ≠ [] → l.getLastD d_page ∈ l := by
  intro l
  induction l with
  | nil => intro h; exact absurd rfl h
  | cons x r ih =>
    intro _
    cases r with
    | nil => simp [List.getLastD_cons]
    | cons y s =>
      rw [List.getLastD_cons]
      rw [getLastD_of_ne_nil (y :: s) (by simp) x d_page]
      exact List.mem_cons_of_mem x (ih (by simp))

/-- C7: on a non-empty offset-sorted page list, `_find_page` returns the
`page_num` of the page whose half-open offset range `[offset_i, offset_(i+1))`
contains the given offset; an offset at or past the last page's start resolves
to the last page; and a single-page list always resolves to that page. -/
theorem c7_find_page (pages : List Page) (off : Nat)
    (hs : List.Pairwise (fun a b => a.offset ≤ b.offset) pages) :
    (∀ i, i + 1 < pages.length →
      (pages.getD i d_page).offset ≤ off →
      off < (pages.getD (i + 1) d_page).offset →
      find_page pages off = (pages.getD i d_page).page_num) ∧
    (pages ≠ [] → (pages.getLastD d_page).offset ≤ off →
      find_page pages off = (pages.getLastD d_page).page_num) ∧
    (∀ p, pages = [p] → find_page pages off = p.page_num) := by
  revert hs
  induction pages with
  | nil =>
    intro _
    refine ⟨?_, ?_, ?_⟩
    · intro i hi; simp at hi
    · intro h; exact absurd rfl h
    · intro p hp; exact absurd hp (by simp)
  | cons p rest ih =>
    intro hs
    cases rest with
    | nil =>
      refine ⟨?_, ?_, ?_⟩
      · intro i hi; simp at hi
      · intro _ _; rfl
      · intro r hr
        have : p = r := by injection hr
        rw [← this]; rfl
    | cons q rest2 =>
      have hs' : List.Pairwise (fun a b => a.offset ≤ b.offset) (q :: rest2) :=
        (List.pairwise_cons.1 hs).2
      obtain ⟨ihA, ihB, ihC⟩ := ih hs'
      refine ⟨?_, ?_, ?_⟩
      · intro i hi h1 h2
        cases i with
        | zero =>
          simp only [List.getD_cons_zero] at h1
          simp only [List.getD_cons_succ, List.getD_cons_zero] at h2
          show find_page (p :: q :: rest2) off = p.page_num
          simp only [find_page]
          rw [if_pos ⟨h1, h2⟩]
        | succ j =>
          simp only [List.getD_cons_succ] at h1 h2
          have hjlen : j < (q :: rest2).length := by
            simp only [List.length_cons] at hi ⊢; omega
          have hq_le : q.offset ≤ ((q :: rest2).getD j d_page).offset :=
            head_le_of_sorted q rest2 hs' _ (getD_mem_pages _ j hjlen)
          simp only [find_page]
          rw [if_neg (by omega)]
          exact ihA j (by simpa using hi) h1 h2
      · intro _ hlast
        have hLD : (p :: q :: rest2).getLastD d_page = (q :: rest2).getLastD d_page := by
          rw [List.getLastD_cons]
          exact getLastD_of_ne_nil (q :: rest2) (by simp) p d_page
        rw [hLD] at hlast ⊢
        have hq_le : q.offset ≤ ((q :: rest2).getLastD d_page).offset :=
          head_le_of_sorted q rest2 hs' _ (getLastD_mem_pages _ (by simp))
        simp only [find_page]
        rw [if_neg (by omega)]
        exact ihB (by simp) hlast
      · intro r hr
        exact absurd hr (by simp)

theorem c7_find_page_witness :
    find_page pages_two 1 = (pages_two.getD 0 d_page).page_num ∧
    find_page pages_two 5 = (pages_two.getLastD d_page).page_num :=
  ⟨(c7_find_page pages_two 1 (by decide)).1 0 (by decide) (by decide) (by decide),
   (c7_find_page pages_two 5 (by decide)).2.1 (by decide) (by decide)⟩

/-- C1 (refuting the claimed termination): with
`SentenceTextSplitter(max_tokens_per_section=500, max_section_length=10,
overlap_percent=10, sentence_search_limit=100)` (so `section_overlap = 1 <
max_section_length`) on a single page of eleven letters `a`, the sliding
window reaches `start = 10`, where each iteration computes `end = 11` and
`start = end - section_overlap = 10` again.  `start` does not strictly
increase and never reaches `length = 11`: for every fuel bound `f + 1` the
loop is still running and has emitted `f` further copies of the final
one-character chunk, so the Python `while start < total_len` loop never
exits.  (With the default configuration the same happens for any
concatenated text longer than 1000 characters.) -/
theorem c1_sliding_loop_diverges :
    ∀ f : Nat, split_pages_sentence count_len cfg_small (f + 1) 1 [pg_a] =
      { page_num := 0, text := t_a } ::
        List.replicate f { page_num := 0, text := ['a'] } := by
  have rep : ∀ g : Nat, sentence_loop count_len cfg_small [pg_a] t_a 1 g 10 =
      List.replicate g { page_num := 0, text := ['a'] } := by
    intro g
    induction g with
    | zero => rfl
    | succ g ih =>
      have hstep : sentence_loop count_len cfg_small [pg_a] t_a 1 (g + 1) 10 =
          { page_num := 0, text := ['a'] } ::
            sentence_loop count_len cfg_small [pg_a] t_a 1 g 10 := rfl
      rw [hstep, ih, List.replicate_succ]
  intro f
  have h1 : split_pages_sentence count_len cfg_small (f + 1) 1 [pg_a] =
      { page_num := 0, text := t_a } ::
        sentence_loop count_len cfg_small [pg_a] t_a 1 f 10 := rfl
  rw [h1, rep]

theorem simple_chunks_text_ne_nil (L : Nat) (hL : 0 < L) :
    ∀ fuel k t sp, sp ∈ simple_chunks L fuel k t → sp.text ≠ [] := by
  intro fuel
  induction fuel with
  | zero => intro k t sp h; simp [simple_chunks] at h
  | succ f ih =>
    intro k t sp h
    cases t with
    | nil => simp [simple_chunks] at h
    | cons c t2 =>
      simp only [simple_chunks] at h
      rw [if_neg (by omega)] at h
      rcases List.mem_cons.1 h with rfl | h2
      · show ((c :: t2).take L : List Char) ≠ []
        cases L with
        | zero => omega
        | succ L2 => simp
      · exact ih _ _ _ h2

/-- C4 counterexample: the simple strategy run on the page `"a   b"` with
`max_object_length = 2` emits the middle chunk `"  "`, which is entirely
whitespace — refuting "every chunk contains a non-whitespace character". -/
theorem c4_counterexample :
    ¬ ∀ sp ∈ simple_split_pages 2 [pg_ws_mix],
        sp.text.any (fun c => ! is_py_ws c) = true := by
  decide

/-- C4 amended: a chunk may be entirely whitespace.  What does hold: every
chunk emitted by `SimpleTextSplitter.split_pages` (for positive
`max_object_length`) is a non-empty string, and when the whole non-whitespace
buffer fits in one chunk, that single chunk contains a non-whitespace
character. -/
theorem c4_amended_nonempty_chunks (L : Nat) (pages : List Page) (hL : 0 < L) :
    (∀ sp ∈ simple_split_pages L pages, sp.text ≠ []) ∧
    (strip_empty (join_text pages) = false → (join_text pages).length ≤ L →
      simple_split_pages L pages = [{ page_num := 0, text := join_text pages }] ∧
      (join_text pages).any (fun c => ! is_py_ws c) = true) := by
  constructor
  · intro sp hsp
    by_cases h1 : strip_empty (join_text pages) = true
    · simp [simple_split_pages, h1] at hsp
    · rw [Bool.not_eq_true] at h1
      by_cases h2 : (join_text pages).length ≤ L
      · simp only [simple_split_pages, h1, Bool.false_eq_true, if_false, if_pos h2,
          List.mem_singleton] at hsp
        subst hsp
        intro hnil
        have hnil2 : join_text pages = [] := hnil
        rw [hnil2] at h1
        simp [strip_empty] at h1
      · simp only [simple_split_pages, h1, Bool.false_eq_true, if_false, if_neg h2] at hsp
        exact simple_chunks_text_ne_nil L hL _ _ _ _ hsp
  · intro h1 h2
    have h3 : (join_text pages).all is_py_ws = false := h1
    constructor
    · simp only [simple_split_pages]
      rw [if_neg (by simp [h1]), if_pos h2]
    · simp only [List.all_eq_false] at h3
      obtain ⟨c, hc, hpc⟩ := h3
      simp only [List.any_eq_true]
      exact ⟨c, hc, by simp [hpc]⟩

theorem c4_amended_nonempty_chunks_witness :
    0 < 2 ∧
    (simple_split_pages 2 [pg_ab] = [{ page_num := 0, text := "ab".toList }] ∧
      ("ab".toList).any (fun c => ! is_py_ws c) = true) :=
  ⟨by decide, (c4_amended_nonempty_chunks 2 [pg_ab] (by decide)).2 (by decide) (by decide)⟩

/-- C9: when the concatenated text of the input pages is empty or entirely
whitespace, both strategies yield zero chunks. -/
theorem c9_whitespace_zero_chunks (ct : List Char → Nat) (cfg : SentenceSplitCfg)
    (loopFuel tokFuel L : Nat) (pages : List Page)
    (h : strip_empty (join_text pages) = true) :
    split_pages_sentence ct cfg loopFuel tokFuel pages = [] ∧
    simple_split_pages L pages = [] := by
  constructor
  · simp [split_pages_sentence, h]
  · simp [simple_split_pages, h]

theorem c9_whitespace_zero_chunks_witness :
    strip_empty (join_text [pg_ws]) = true ∧
    (split_pages_sentence count_len default_cfg 3 3 [pg_ws] = [] ∧
      simple_split_pages 5 [pg_ws] = []) :=
  ⟨by decide, c9_whitespace_zero_chunks count_len default_cfg 3 3 5 [pg_ws] (by decide)⟩

end TextSplitter
